import Mathlib

/-!
Shallow embedding of the `naeti-utils-deno` value-type library:
`Duration` (src/unnamed/part_000, duration.ts), `Instant`
(src/utils/logger.ts, instant.ts part) and `Optional`
(src/utils/optional.ts).  JavaScript numbers holding millisecond
counts are embedded as `Int`; `throw` is embedded as `Except Err`;
the JavaScript values `null` and `undefined` are embedded as the
two non-value constructors of `JSVal`.
-/

/-- Error kinds of the library: `invalidArgument` is the error thrown by
`Duration.ofMillis` on a negative argument, `illegalState` the error thrown
by `Optional.get` on an absent instance. -/
inductive Err where
  | invalidArgument (msg : String)
  | illegalState (msg : String)
deriving DecidableEq

/-- A JavaScript value of type `T` that may also be `null` or `undefined`.
Used to embed the `T | undefined | null` slot of `Optional` and the
possibly-null results of caller-supplied functions. -/
inductive JSVal (T : Type) where
  | val (v : T)
  | jsNull
  | jsUndefined
deriving DecidableEq

/-- `Duration` stores a signed millisecond count (`private readonly millis`). -/
structure Duration where
  millis : Int
deriving DecidableEq

namespace Duration

/-- `ofMillis(millis)`: throws "Duration must not be negative" when
`millis < 0`, else `new Duration(millis)`. -/
def ofMillis (millis : Int) : Except Err Duration :=
  if millis < 0 then .error (.invalidArgument "Duration must not be negative")
  else .ok ⟨millis⟩

/-- `ofSeconds(seconds)`: `new Duration(seconds * 1000)` (no validation). -/
def ofSeconds (seconds : Int) : Duration := ⟨seconds * 1000⟩

/-- `ofMinutes(minutes)`: `new Duration(minutes * 60 * 1000)` (no validation). -/
def ofMinutes (minutes : Int) : Duration := ⟨minutes * 60 * 1000⟩

/-- `ofHours(hours)`: `new Duration(hours * 60 * 60 * 1000)` (no validation). -/
def ofHours (hours : Int) : Duration := ⟨hours * 60 * 60 * 1000⟩

/-- `ofDays(days)`: `new Duration(days * 24 * 60 * 60 * 1000)` (no validation). -/
def ofDays (days : Int) : Duration := ⟨days * 24 * 60 * 60 * 1000⟩

/-- `toMillis()`: returns the stored millisecond count. -/
def toMillis (d : Duration) : Int := d.millis

/-- `plus(other)`: `new Duration(this.millis + other.millis)`. -/
def plus (d other : Duration) : Duration := ⟨d.millis + other.millis⟩

/-- `minus(other)`: `new Duration(this.millis - other.millis)`. -/
def minus (d other : Duration) : Duration := ⟨d.millis - other.millis⟩

/-- `isEquals(other)`: `this.millis === other.millis`. -/
def isEquals (d other : Duration) : Bool := d.millis == other.millis

/-- `isLessThan(other)`: `this.millis < other.millis`. -/
def isLessThan (d other : Duration) : Bool := d.millis < other.millis

/-- `isGreaterThanOrEqual(other)`: `this.millis >= other.millis`. -/
def isGreaterThanOrEqual (d other : Duration) : Bool := d.millis ≥ other.millis

end Duration

/-- `Optional<T>` wraps a slot of type `T | undefined | null`. -/
structure Optional (T : Type) where
  value : JSVal T
deriving DecidableEq

namespace Optional

/-- `isNullOrUndefined(value)`: `value === undefined || value === null`. -/
def isNullOrUndefined {T : Type} (value : JSVal T) : Bool :=
  match value with
  | .val _ => false
  | .jsNull => true
  | .jsUndefined => true

/-- `Optional.of(value)`: `new Optional(value)` (absent iff the argument is
`null` or `undefined`). -/
def of {T : Type} (value : JSVal T) : Optional T := ⟨value⟩

/-- `Optional.empty()`: `new Optional(undefined)`. -/
def empty {T : Type} : Optional T := ⟨.jsUndefined⟩

/-- `isPresent()`: `isNullOrUndefined(this.value) === false`. -/
def isPresent {T : Type} (o : Optional T) : Bool :=
  isNullOrUndefined o.value == false

/-- `get()`: throws "Value is not present" when the slot is null/undefined,
else returns the held value. -/
def get {T : Type} (o : Optional T) : Except Err T :=
  match o.value with
  | .val v => .ok v
  | _ => .error (.illegalState "Value is not present")

/-- `orElse(other)`: the held value when present, else `other`. -/
def orElse {T : Type} (o : Optional T) (other : T) : JSVal T :=
  if isNullOrUndefined o.value then .val other else o.value

/-- `orElseThrow(throws)`: when the slot is null/undefined the caller-supplied
`throws()` runs first (if it raises, that error propagates); then
`this.value!` is returned — the raw slot, which is the absent sentinel when
`throws` returned normally.  The thrower is embedded as the `Except` value it
produces. -/
def orElseThrow {T : Type} (o : Optional T) (throws : Except Err Unit) :
    Except Err (JSVal T) :=
  if isNullOrUndefined o.value then
    match throws with
    | .error e => .error e
    | .ok _ => .ok o.value
  else .ok o.value

/-- `map(mapper)`: absent stays absent; a present value is fed to `mapper`
and the (possibly null/undefined) result is rewrapped via `Optional.of`.
The mapper is embedded as `T → JSVal U` since a JavaScript function may
return `null`/`undefined`. -/
def map {T U : Type} (o : Optional T) (mapper : T → JSVal U) : Optional U :=
  match o.value with
  | .val v => Optional.of (mapper v)
  | _ => Optional.empty

end Optional

/-- `Instant` stores a signed millisecond count since the epoch
(`private epochMilli`). -/
structure Instant where
  epochMilli : Int
deriving DecidableEq

namespace Instant

/-- `ofEpochMilli(milli)`: `new Instant(milli)`. -/
def ofEpochMilli (milli : Int) : Instant := ⟨milli⟩

/-- `isAfter(other)`: `this.epochMilli > other.epochMilli`. -/
def isAfter (a other : Instant) : Bool := a.epochMilli > other.epochMilli

/-- `isBefore(other)`: `this.epochMilli < other.epochMilli`. -/
def isBefore (a other : Instant) : Bool := a.epochMilli < other.epochMilli

/-- `isEqual(other)`: `this.epochMilli === other.epochMilli`. -/
def isEqual (a other : Instant) : Bool := a.epochMilli == other.epochMilli

/-- `minus(duration)`: `new Instant(this.epochMilli - duration.toMillis())`. -/
def minus (a : Instant) (duration : Duration) : Instant :=
  ⟨a.epochMilli - duration.toMillis⟩

/-- `plus(duration)`: `new Instant(this.epochMilli + duration.toMillis())`. -/
def plus (a : Instant) (duration : Duration) : Instant :=
  ⟨a.epochMilli + duration.toMillis⟩

/-- The millisecond argument `Math.abs(this.epochMilli - other.epochMilli)`
that `difference` passes to `Duration.ofMillis`. -/
def differenceMillis (a other : Instant) : Int :=
  |a.epochMilli - other.epochMilli|

/-- `difference(other)`: `Duration.ofMillis(Math.abs(this.epochMilli -
other.epochMilli))` — goes through the throwing factory. -/
def difference (a other : Instant) : Except Err Duration :=
  Duration.ofMillis (differenceMillis a other)

/-- `isWithinUpperBound(other, range)`: `other.isBefore(this.plus(range))`. -/
def isWithinUpperBound (a : Instant) (other : Instant) (range : Duration) :
    Bool :=
  other.isBefore (a.plus range)

/-- `isWithinLowerBound(other, range)`: `other.isAfter(this.minus(range))`. -/
def isWithinLowerBound (a : Instant) (other : Instant) (range : Duration) :
    Bool :=
  other.isAfter (a.minus range)

/-- `isWithinRange(other, range)`: both bound checks must hold. -/
def isWithinRange (a : Instant) (other : Instant) (range : Duration) : Bool :=
  a.isWithinUpperBound other range && a.isWithinLowerBound other range

/-- The `for` loop of `findClosestInstant`, carrying the running
`closestInstant` and `closestDifference` (the latter always the
always-succeeding value of `this.difference(closestInstant)`); a candidate
replaces the best only when its difference `isLessThan` the running best. -/
def findClosestAux (t best : Instant) (bestDiff : Duration)
    (rest : List Instant) : Instant :=
  match rest with
  | [] => best
  | c :: rest' =>
    if (Duration.mk (differenceMillis t c)).isLessThan bestDiff then
      findClosestAux t c ⟨differenceMillis t c⟩ rest'
    else
      findClosestAux t best bestDiff rest'

/-- `findClosestInstant(instants)`: empty input gives `Optional.empty()`;
otherwise the scan starts from index 0 and the final best is wrapped with
`Optional.of`. -/
def findClosestInstant (t : Instant) (instants : List Instant) :
    Optional Instant :=
  match instants with
  | [] => Optional.empty
  | x :: rest =>
    Optional.of (.val (findClosestAux t x ⟨differenceMillis t x⟩ rest))

end Instant

/-! ## Helper lemmas -/

theorem Instant.differenceMillis_nonneg (a b : Instant) :
    0 ≤ Instant.differenceMillis a b :=
  abs_nonneg _

theorem Instant.difference_eq_ok (a b : Instant) :
    a.difference b = .ok ⟨Instant.differenceMillis a b⟩ := by
  unfold Instant.difference Duration.ofMillis
  rw [if_neg (not_lt.mpr (Instant.differenceMillis_nonneg a b))]

/-! ## Claim theorems -/

/-- C2: `a.isWithinRange(b, range)` is true iff `b`'s epoch milliseconds lie
strictly between `a`'s millis minus the range's millis and `a`'s millis plus
the range's millis (both bounds exclusive); equivalently, it equals the
conjunction of `b.isBefore(a.plus(range))` and `b.isAfter(a.minus(range))`. -/
theorem isWithinRange_open_interval (a b : Instant) (range : Duration) :
    (a.isWithinRange b range = true ↔
      a.epochMilli - range.millis < b.epochMilli ∧
      b.epochMilli < a.epochMilli + range.millis) ∧
    a.isWithinRange b range =
      (b.isBefore (a.plus range) && b.isAfter (a.minus range)) := by
  constructor
  · simp only [Instant.isWithinRange, Instant.isWithinUpperBound,
      Instant.isWithinLowerBound, Instant.isBefore, Instant.isAfter,
      Instant.plus, Instant.minus, Duration.toMillis, Bool.and_eq_true,
      decide_eq_true_eq]
    omega
  · rfl

/-- C3 counterexample: a zero-millisecond range is non-negative, yet an
instant exactly equal to the base instant is reported as not within range —
`Instant.ofEpochMilli 0` is not within a zero range of itself, because the
exclusive upper-bound check `0 < 0 + 0` fails. -/
theorem isWithinRange_equal_zero_range_cex :
    (0 : Int) ≤ (Duration.mk 0).millis ∧
    (Instant.mk 0).epochMilli = (Instant.mk 0).epochMilli ∧
    Instant.isWithinRange ⟨0⟩ ⟨0⟩ ⟨0⟩ = false := by
  decide

/-- C3 (amended): an Instant exactly equal to `t` is within range whenever
the range's milliseconds are strictly positive; with a zero range both
exclusive bound checks fail, so `isWithinRange` returns `false`. -/
theorem isWithinRange_equal_instant (t other : Instant) (range : Duration)
    (h : other.epochMilli = t.epochMilli) :
    (0 < range.millis → t.isWithinRange other range = true) ∧
    (range.millis = 0 → t.isWithinRange other range = false) := by
  simp only [Instant.isWithinRange, Instant.isWithinUpperBound,
    Instant.isWithinLowerBound, Instant.isBefore, Instant.isAfter,
    Instant.plus, Instant.minus, Duration.toMillis, Bool.and_eq_true,
    decide_eq_true_eq, Bool.and_eq_false_iff, decide_eq_false_iff_not, h]
  omega

/-- C3 witness: at concrete inputs, an instant equals itself and is within a
one-millisecond range. -/
theorem isWithinRange_equal_instant_witness :
    Instant.isWithinRange ⟨5⟩ ⟨5⟩ ⟨1⟩ = true :=
  (isWithinRange_equal_instant ⟨5⟩ ⟨5⟩ ⟨1⟩ (by decide)).1 (by decide)

/-- C4: `Duration.ofMillis n` raises `InvalidArgument` iff `n < 0` and
returns a Duration holding `n` otherwise; the other factories never raise
and multiply unchecked, so a negative argument yields a negative
millisecond count. -/
theorem duration_factories_validation (n : Int) :
    (n < 0 → Duration.ofMillis n =
      .error (.invalidArgument "Duration must not be negative")) ∧
    (0 ≤ n → Duration.ofMillis n = .ok ⟨n⟩) ∧
    (Duration.ofSeconds n).millis = n * 1000 ∧
    (Duration.ofMinutes n).millis = n * 60 * 1000 ∧
    (Duration.ofHours n).millis = n * 60 * 60 * 1000 ∧
    (Duration.ofDays n).millis = n * 24 * 60 * 60 * 1000 ∧
    (n < 0 → (Duration.ofSeconds n).millis < 0 ∧
      (Duration.ofMinutes n).millis < 0 ∧ (Duration.ofHours n).millis < 0 ∧
      (Duration.ofDays n).millis < 0) := by
  refine ⟨fun h => ?_, fun h => ?_, rfl, rfl, rfl, rfl, fun h => ?_⟩
  · unfold Duration.ofMillis
    rw [if_pos h]
  · unfold Duration.ofMillis
    rw [if_neg (not_lt.mpr h)]
  · refine ⟨?_, ?_, ?_, ?_⟩ <;>
      simp only [Duration.ofSeconds, Duration.ofMinutes, Duration.ofHours,
        Duration.ofDays] <;>
      omega

/-- C4 witness: the factories evaluated at concrete negative and
non-negative arguments. -/
theorem duration_factories_validation_witness :
    Duration.ofMillis (-1) =
      .error (.invalidArgument "Duration must not be negative") ∧
    Duration.ofMillis 7 = .ok ⟨7⟩ ∧
    (Duration.ofSeconds (-2)).millis < 0 :=
  ⟨(duration_factories_validation (-1)).1 (by decide),
   (duration_factories_validation 7).2.1 (by decide),
   ((duration_factories_validation (-2)).2.2.2.2.2.2 (by decide)).1⟩

/-- C5: `a.difference(b)` returns a Duration holding the absolute value of
the millisecond gap; it is symmetric in its millisecond value, and
`a.difference(a)` holds zero milliseconds. -/
theorem difference_abs_symm (a b : Instant) :
    a.difference b = .ok ⟨|a.epochMilli - b.epochMilli|⟩ ∧
    (a.difference b).map Duration.toMillis =
      (b.difference a).map Duration.toMillis ∧
    a.difference a = .ok ⟨0⟩ := by
  refine ⟨Instant.difference_eq_ok a b, ?_, ?_⟩
  · rw [Instant.difference_eq_ok a b, Instant.difference_eq_ok b a]
    simp only [Except.map, Duration.toMillis, Instant.differenceMillis]
    rw [abs_sub_comm]
  · rw [Instant.difference_eq_ok a a]
    simp [Instant.differenceMillis]

/-- C6: adding a Duration and then subtracting the same Duration yields a
Duration `isEquals` to the original, for all Durations including
negative-valued ones. -/
theorem duration_plus_minus_cancel (a b : Duration) :
    ((a.plus b).minus b).isEquals a = true := by
  simp [Duration.plus, Duration.minus, Duration.isEquals]

/-- C7: `Optional.of(v)` is absent exactly when `v` is `null` or
`undefined`; `get()` on a present Optional returns the held value, and on an
absent Optional — built via `of(null)`, `of(undefined)` or `empty()` — it
raises the `IllegalState` error. -/
theorem optional_of_get_spec {T : Type} (v : T) :
    (∀ w : JSVal T, (Optional.of w).isPresent = false ↔
      w = .jsNull ∨ w = .jsUndefined) ∧
    (Optional.of (.val v)).get = .ok v ∧
    (Optional.of (JSVal.jsNull : JSVal T)).get =
      .error (.illegalState "Value is not present") ∧
    (Optional.of (JSVal.jsUndefined : JSVal T)).get =
      .error (.illegalState "Value is not present") ∧
    (Optional.empty : Optional T).get =
      .error (.illegalState "Value is not present") := by
  refine ⟨fun w => ?_, rfl, rfl, rfl, rfl⟩
  cases w <;>
    simp [Optional.of, Optional.isPresent, Optional.isNullOrUndefined]

/-- C8: `orElseThrow(thrower)` on an absent Optional runs the thrower — a
raising thrower's error propagates, while a normally-returning thrower makes
`orElseThrow` return the absent sentinel normally; on a present Optional the
thrower is never consulted and the held value is returned. -/
theorem optional_orElseThrow_spec {T : Type} (o : Optional T)
    (th : Except Err Unit) :
    (o.isPresent = false → ∀ e, o.orElseThrow (.error e) = .error e) ∧
    (o.isPresent = false →
      o.orElseThrow (.ok ()) = .ok o.value ∧ ∀ v, o.value ≠ .val v) ∧
    (∀ v, o.value = .val v → o.orElseThrow th = .ok (.val v)) := by
  obtain ⟨w⟩ := o
  cases w <;>
    simp [Optional.isPresent, Optional.isNullOrUndefined, Optional.orElseThrow]

/-- C8 witness: `orElseThrow` evaluated on concrete absent and present
Optionals, with a raising and a normally-returning thrower. -/
theorem optional_orElseThrow_spec_witness :
    (Optional.mk (JSVal.jsNull : JSVal Int)).orElseThrow
        (.error (.illegalState "absent")) = .error (.illegalState "absent") ∧
    (Optional.mk (JSVal.jsNull : JSVal Int)).orElseThrow (.ok ()) =
      .ok JSVal.jsNull ∧
    (Optional.mk (JSVal.val (3 : Int))).orElseThrow
        (.error (.illegalState "absent")) = .ok (.val 3) :=
  ⟨(optional_orElseThrow_spec ⟨JSVal.jsNull⟩ (.ok ())).1 (by decide) _,
   ((optional_orElseThrow_spec ⟨JSVal.jsNull⟩ (.ok ())).2.1 (by decide)).1,
   (optional_orElseThrow_spec ⟨JSVal.val 3⟩
      (.error (.illegalState "absent"))).2.2 3 rfl⟩

/-- C9: `Instant.difference` never raises — although it builds its result
through the throwing factory `Duration.ofMillis`, its argument is an
absolute value, so the negative-argument branch is unreachable. -/
theorem difference_never_errors (a b : Instant) :
    ∃ d, a.difference b = .ok d :=
  ⟨⟨Instant.differenceMillis a b⟩, Instant.difference_eq_ok a b⟩

/-- C10: the Optional produced by `map(fn)` is present iff the source is
present and the mapper's result is neither null nor undefined; in
particular a present source whose mapper returns null/undefined maps to an
absent Optional. -/
theorem optional_map_present_iff {T U : Type} (o : Optional T)
    (mapper : T → JSVal U) :
    ((o.map mapper).isPresent = true ↔
      ∃ v, o.value = JSVal.val v ∧ ∃ u, mapper v = JSVal.val u) ∧
    (∀ v, o.value = JSVal.val v →
      Optional.isNullOrUndefined (mapper v) = true →
      (o.map mapper).isPresent = false) := by
  obtain ⟨w⟩ := o
  cases w with
  | val v =>
    constructor
    · cases h : mapper v <;>
        simp [Optional.map, Optional.of, Optional.isPresent,
          Optional.isNullOrUndefined, Optional.empty, h]
    · intro v' hv hnull
      obtain rfl : v = v' := by injection hv
      cases h : mapper v <;>
        simp [h, Optional.isNullOrUndefined] at hnull ⊢ <;>
        simp [Optional.map, Optional.of, Optional.isPresent,
          Optional.isNullOrUndefined, h]
  | jsNull =>
    simp [Optional.map, Optional.isPresent, Optional.isNullOrUndefined,
      Optional.empty]
  | jsUndefined =>
    simp [Optional.map, Optional.isPresent, Optional.isNullOrUndefined,
      Optional.empty]

/-- C10 witness: a present Optional whose mapper returns null maps to an
absent Optional. -/
theorem optional_map_present_iff_witness :
    ((Optional.mk (JSVal.val (5 : Int))).map
      fun _ => (JSVal.jsNull : JSVal Int)).isPresent = false :=
  (optional_map_present_iff ⟨JSVal.val 5⟩ fun _ => JSVal.jsNull).2 5 rfl rfl

/-- Invariant of the scan loop: starting from `best` with running difference
equal to `best`'s own difference, the loop either keeps `best` (and then
`best`'s difference is minimal over the scanned suffix), or lands on an
element of the suffix whose difference is strictly below `best`'s, minimal
over the suffix, and strictly below the difference of every earlier suffix
element. -/
theorem Instant.findClosestAux_spec (t : Instant) :
    ∀ (l : List Instant) (best r : Instant),
      Instant.findClosestAux t best ⟨Instant.differenceMillis t best⟩ l = r →
      (r = best ∧ ∀ c ∈ l, Instant.differenceMillis t best ≤
        Instant.differenceMillis t c) ∨
      (∃ i, i < l.length ∧ l.getD i t = r ∧
        Instant.differenceMillis t r < Instant.differenceMillis t best ∧
        (∀ c ∈ l, Instant.differenceMillis t r ≤
          Instant.differenceMillis t c) ∧
        (∀ j, j < i → Instant.differenceMillis t r <
          Instant.differenceMillis t (l.getD j t))) := by
  intro l
  induction l with
  | nil =>
    intro best r hr
    simp only [Instant.findClosestAux] at hr
    subst hr
    exact Or.inl ⟨rfl, fun c hc => absurd hc (List.not_mem_nil c)⟩
  | cons c rest ih =>
    intro best r hr
    rw [Instant.findClosestAux] at hr
    split at hr
    case isTrue h =>
      have hcb : Instant.differenceMillis t c <
          Instant.differenceMillis t best := by
        simpa [Duration.isLessThan] using h
      rcases ih c r hr with ⟨rfl, hall⟩ | ⟨i, hi, hgi, hlt, hall, hfirst⟩
      · right
        refine ⟨0, Nat.succ_pos _, rfl, hcb, ?_,
          fun j hj => absurd hj (Nat.not_lt_zero j)⟩
        intro x hx
        rcases List.mem_cons.mp hx with rfl | hx'
        · exact le_refl _
        · exact hall x hx'
      · right
        refine ⟨i + 1, Nat.succ_lt_succ hi, by simpa using hgi,
          lt_trans hlt hcb, ?_, ?_⟩
        · intro x hx
          rcases List.mem_cons.mp hx with rfl | hx'
          · exact le_of_lt hlt
          · exact hall x hx'
        · intro j hj
          cases j with
          | zero => simpa using hlt
          | succ j' =>
            rw [List.getD_cons_succ]
            exact hfirst j' (Nat.lt_of_succ_lt_succ hj)
    case isFalse h =>
      have hcb : Instant.differenceMillis t best ≤
          Instant.differenceMillis t c := by
        simpa [Duration.isLessThan, not_lt] using h
      rcases ih best r hr with ⟨rfl, hall⟩ | ⟨i, hi, hgi, hlt, hall, hfirst⟩
      · left
        refine ⟨rfl, ?_⟩
        intro x hx
        rcases List.mem_cons.mp hx with rfl | hx'
        · exact hcb
        · exact hall x hx'
      · right
        refine ⟨i + 1, Nat.succ_lt_succ hi, by simpa using hgi, hlt, ?_, ?_⟩
        · intro x hx
          rcases List.mem_cons.mp hx with rfl | hx'
          · exact le_of_lt (lt_of_lt_of_le hlt hcb)
          · exact hall x hx'
        · intro j hj
          cases j with
          | zero => simpa using lt_of_lt_of_le hlt hcb
          | succ j' =>
            rw [List.getD_cons_succ]
            exact hfirst j' (Nat.lt_of_succ_lt_succ hj)

/-- C1: `findClosestInstant` returns an empty Optional on an empty candidate
list; on a non-empty list it returns a present Optional holding a candidate
whose absolute millisecond difference to `t` is minimal over the list, and
that candidate sits at the earliest index attaining the minimum — every
earlier candidate has a strictly larger difference, so a later candidate
with an equal difference never replaces an earlier one. -/
theorem findClosestInstant_spec (t : Instant) (instants : List Instant) :
    (instants = [] → Instant.findClosestInstant t instants = Optional.empty) ∧
    (instants ≠ [] →
      ∃ y i, Instant.findClosestInstant t instants = Optional.of (.val y) ∧
        i < instants.length ∧ instants.getD i t = y ∧
        (∀ c ∈ instants, Instant.differenceMillis t y ≤
          Instant.differenceMillis t c) ∧
        (∀ j, j < i → Instant.differenceMillis t y <
          Instant.differenceMillis t (instants.getD j t))) := by
  constructor
  · rintro rfl
    rfl
  · intro hne
    match instants with
    | [] => exact absurd rfl hne
    | x :: rest =>
      obtain ⟨r, hr⟩ : ∃ r, Instant.findClosestAux t x
          ⟨Instant.differenceMillis t x⟩ rest = r := ⟨_, rfl⟩
      have hfi : Instant.findClosestInstant t (x :: rest) =
          Optional.of (.val r) := by
        simp only [Instant.findClosestInstant, hr]
      rcases Instant.findClosestAux_spec t rest x r hr with
        ⟨rfl, hall⟩ | ⟨i, hi, hgi, hlt, hall, hfirst⟩
      · refine ⟨r, 0, hfi, Nat.succ_pos _, rfl, ?_,
          fun j hj => absurd hj (Nat.not_lt_zero j)⟩
        intro cc hcc
        rcases List.mem_cons.mp hcc with rfl | hcc'
        · exact le_refl _
        · exact hall cc hcc'
      · refine ⟨r, i + 1, hfi, Nat.succ_lt_succ hi, by simpa using hgi,
          ?_, ?_⟩
        · intro cc hcc
          rcases List.mem_cons.mp hcc with rfl | hcc'
          · exact le_of_lt hlt
          · exact hall cc hcc'
        · intro j hj
          cases j with
          | zero => simpa using hlt
          | succ j' =>
            rw [List.getD_cons_succ]
            exact hfirst j' (Nat.lt_of_succ_lt_succ hj)

/-- C1 witness: on the empty list the result is empty; on the spec's tie
example (distance 100 to both candidates) the minimality and
earliest-index properties hold, and the returned candidate is the first
element. -/
theorem findClosestInstant_spec_witness :
    Instant.findClosestInstant ⟨5000⟩ [] = Optional.empty ∧
    (∃ y i, Instant.findClosestInstant ⟨0⟩ [⟨100⟩, ⟨-100⟩] =
        Optional.of (.val y) ∧
      i < ([⟨100⟩, ⟨-100⟩] : List Instant).length ∧
      List.getD [⟨100⟩, ⟨-100⟩] i ⟨0⟩ = y ∧
      (∀ c ∈ ([⟨100⟩, ⟨-100⟩] : List Instant),
        Instant.differenceMillis ⟨0⟩ y ≤ Instant.differenceMillis ⟨0⟩ c) ∧
      (∀ j, j < i → Instant.differenceMillis ⟨0⟩ y <
        Instant.differenceMillis ⟨0⟩ (List.getD [⟨100⟩, ⟨-100⟩] j ⟨0⟩))) ∧
    Instant.findClosestInstant ⟨0⟩ [⟨100⟩, ⟨-100⟩] =
      Optional.of (.val ⟨100⟩) :=
  ⟨(findClosestInstant_spec ⟨5000⟩ []).1 rfl,
   (findClosestInstant_spec ⟨0⟩ [⟨100⟩, ⟨-100⟩]).2 (by decide),
   by decide⟩
